import Mathlib

/-!
Verification of the ECG monitor's streaming signal-processing pipeline
(`src/gui.py`, class `ECGApp`).  The pipeline is shallowly embedded:

* raw serial bytes are modelled as a `String` (the source decodes with
  `errors='replace'`, so by the time the logic of `update_plot` runs it is
  operating on text); Python's `str.strip` / `str.split` are embedded as
  structurally recursive functions on `List Char`;
* numpy's floating-point arithmetic is modelled by exact rationals `ℚ`;
* the threshold comparison `x > mean + 1.5 * std` (where `std` is a square
  root) is embedded as the algebraically equivalent rational test
  `0 < x - mean ∧ (9/4) * variance < (x - mean)^2`; the equivalence with the
  real-number formulation is proved in `aboveThr_iff_real` below;
* Python's `int(...)` truncation toward zero is modelled by `truncInt` on `ℚ`.

For concrete evaluation the rational pipeline is related (by proof) to a
25-times-scaled integer pipeline (`scaledFilter`, `peaksZ`), since the raw
samples are integers and the moving-average window has width 25.

Constants from the top of `gui.py`:
`SAMPLE_RATE = 250`, `DISPLAY_TIME_SECONDS = 6`, `MAX_POINTS = 1500`,
`FILTER_SIZE = 25`, `MIN_HEART_RATE = 40`, `MAX_HEART_RATE = 200`,
history deque `maxlen=5`, recompute interval 1.0 s.
-/

/-! ## Python `int`, `strip`, `split` on character lists -/

/-- Python `int(x)` applied to a (nonnegative-denominator) rational:
truncation toward zero. -/
def truncInt (q : ℚ) : ℤ := if q < 0 then Int.ceil q else Int.floor q

/-- The whitespace characters stripped by Python's `str.strip()`
(ASCII portion). -/
def isPySpace (c : Char) : Bool :=
  c == ' ' || c == '\t' || c == '\n' || c == '\r' || c == '\x0b' || c == '\x0c'

/-- Python `str.strip()`: drop whitespace from both ends. -/
def trimChars (cs : List Char) : List Char :=
  ((cs.dropWhile isPySpace).reverse.dropWhile isPySpace).reverse

/-- Python `str.split('\n')`: split on every newline, keeping empty pieces. -/
def splitNL : List Char → List (List Char)
  | [] => [[]]
  | c :: rest =>
    if c = '\n' then [] :: splitNL rest
    else
      match splitNL rest with
      | [] => [[c]]
      | l :: ls => (c :: l) :: ls

/-- Value of an ASCII digit character. -/
def digitVal (c : Char) : ℕ := c.toNat - 48

/-- Digits after the first one in a Python decimal integer literal: a run of
digits in which single underscores may separate digits
(`digit (["_"] digit)*`, as accepted by Python's `int`). -/
def pyDigitsGo (acc : ℕ) : List Char → Option ℕ
  | [] => some acc
  | '_' :: c :: cs => if c.isDigit then pyDigitsGo (10 * acc + digitVal c) cs else none
  | ['_'] => none
  | c :: cs => if c.isDigit then pyDigitsGo (10 * acc + digitVal c) cs else none

/-- A Python `digitpart`: at least one digit, underscores allowed between
digits. -/
def pyDigitPart : List Char → Option ℕ
  | [] => none
  | c :: cs => if c.isDigit then pyDigitsGo (digitVal c) cs else none

/-- Python `int(s)` applied to an already-stripped string: an optional sign
followed by a digit part; anything else raises `ValueError`, modelled `none`. -/
def pyIntChars (cs : List Char) : Option ℤ :=
  match cs with
  | '-' :: rest => (pyDigitPart rest).map (fun n => -(n : ℤ))
  | '+' :: rest => (pyDigitPart rest).map (fun n => (n : ℤ))
  | rest => (pyDigitPart rest).map (fun n => (n : ℤ))

/-! ## Sample events and ingestion -/

/-- One typed sample event produced from one input line (spec §3
`SampleEvent`). -/
inductive SampleEvent where
  | leadOff : SampleEvent
  | reading : ℤ → SampleEvent
deriving DecidableEq, Repr

/-- Classification of a single line by the loop body of `update_plot`
(`gui.py` lines 175-189): strip, skip if empty, parse as `int`; `-1` is the
lead-off sentinel, any other integer is a reading, a failed parse is silently
discarded. -/
def lineEvent (line : List Char) : Option SampleEvent :=
  if (trimChars line).isEmpty then none
  else
    match pyIntChars (trimChars line) with
    | some v => if v = -1 then some SampleEvent.leadOff else some (SampleEvent.reading v)
    | none => none

/-- The lines of one raw chunk:
`raw_data.decode('utf-8', errors='replace').strip().split('\n')`
(`gui.py` line 170). -/
def chunkLines (chunk : String) : List (List Char) :=
  splitNL (trimChars chunk.data)

/-- The event sequence of one raw chunk, in input order. -/
def parseEvents (chunk : String) : List SampleEvent :=
  (chunkLines chunk).filterMap lineEvent

/-- `deque(maxlen=1500).append`: the display buffer push
(`MAX_POINTS = SAMPLE_RATE * DISPLAY_TIME_SECONDS = 1500`, `gui.py` line 38). -/
def bufPush (b : List ℤ) (x : ℤ) : List ℤ :=
  if b.length < 1500 then b ++ [x] else b.tail ++ [x]

/-- `deque(maxlen=5).append`: the heart-rate history push (`gui.py` line 41). -/
def histPush (h : List ℤ) (x : ℤ) : List ℤ :=
  if h.length < 5 then h ++ [x] else h.tail ++ [x]

/-- The ingestion loop of `update_plot` (lines 172-189): fold over the lines,
pushing readings into the buffer, recording whether a `-1` lead-off sentinel
appeared (`lead_off_detected`), and counting accepted readings
(`new_data_count`). -/
def processLines : List (List Char) → List ℤ × Bool × ℕ → List ℤ × Bool × ℕ
  | [], st => st
  | line :: rest, (buf, flag, cnt) =>
    let t := trimChars line
    if t.isEmpty then processLines rest (buf, flag, cnt)
    else
      match pyIntChars t with
      | none => processLines rest (buf, flag, cnt)
      | some v =>
        if v = -1 then processLines rest (buf, true, cnt)
        else processLines rest (bufPush buf v, flag, cnt + 1)

/-! ## Baseline filter (`gui.py` line 224)

`filtered_data = data - np.convolve(data, np.ones(FILTER_SIZE)/FILTER_SIZE, mode='same')`

`convFull` is the discrete convolution, `convSame` numpy's `mode='same'`
centred slice (valid for windows of length ≥ 25, which the pipeline
guarantees since it runs only with ≥ `SAMPLE_RATE` = 250 samples). -/

/-- `np.ones(25)/25`. -/
def kernel25 : List ℚ := List.replicate 25 (1 / 25)

/-- Full discrete convolution: `(a ⋆ v)[n] = Σ_m a[m]·v[n-m]`. -/
def convFull (a v : List ℚ) : List ℚ :=
  (List.range (a.length + v.length - 1)).map (fun n =>
    ((List.range a.length).map
      (fun m => a.getD m 0 * (if m ≤ n then v.getD (n - m) 0 else 0))).sum)

/-- numpy `mode='same'`: the centred middle slice of the full convolution,
of the same length as `a`. -/
def convSame (a v : List ℚ) : List ℚ :=
  ((convFull a v).drop ((v.length - 1) / 2)).take a.length

/-- The baseline filter: raw window minus its width-25 centred moving
average. -/
def baselineFilter (data : List ℚ) : List ℚ :=
  (List.range data.length).map
    (fun i => data.getD i 0 - (convSame data kernel25).getD i 0)

/-- The sum of the samples in the window of width 25 centred at `i`, clamped
to the bounds of the data (indices `max (i-12) 0` to `min (i+12) (L-1)`). -/
def windowSum (data : List ℚ) (i : ℕ) : ℚ :=
  ((List.range data.length).map
    (fun m => if i ≤ m + 12 ∧ m ≤ i + 12 then data.getD m 0 else 0)).sum

/-! ### Computational (25-times-scaled, integer) form of the filter -/

/-- Clamped window sum over integers, as a contiguous slice. -/
def windowSumZ (f : List ℤ) (i : ℕ) : ℤ :=
  ((f.drop (i - 12)).take (min f.length (i + 13) - (i - 12))).sum

/-- `25 ×` the baseline-filtered window of an integer sample window
(the raw samples are integers, so `25·filtered[i] = 25·data[i] - windowSum i`
is an integer). -/
def scaledFilter (f : List ℤ) : List ℤ :=
  (List.range f.length).map (fun i => 25 * f.getD i 0 - windowSumZ f i)

/-! ### Bridge lemmas: list sums, slices, and the convolution -/

theorem listRangeSum {M : Type} [AddCommMonoid M] (n : ℕ) (f : ℕ → M) :
    ((List.range n).map f).sum = ∑ m ∈ Finset.range n, f m := by
  induction n with
  | zero => simp
  | succ k ih =>
    rw [List.range_succ, List.map_append, List.sum_append, Finset.sum_range_succ, ih]
    simp

theorem take_sum_getD {M : Type} [AddCommMonoid M] :
    ∀ (l : List M) (k : ℕ), k ≤ l.length →
      (l.take k).sum = ∑ j ∈ Finset.range k, l.getD j 0
  | _, 0, _ => by simp
  | [], k + 1, hk => by simp at hk
  | x :: xs, k + 1, hk => by
    have ih := take_sum_getD xs k (by simpa using hk)
    rw [List.take_succ_cons, List.sum_cons, ih, Finset.sum_range_succ']
    simp [add_comm]

theorem slice_sum {M : Type} [AddCommMonoid M] (l : List M) (s e : ℕ)
    (he : e ≤ l.length) :
    ((l.drop s).take (e - s)).sum = ∑ m ∈ Finset.Ico s e, l.getD m 0 := by
  rw [take_sum_getD (l.drop s) (e - s) (by simp; omega)]
  rw [Finset.sum_Ico_eq_sum_range]
  refine Finset.sum_congr rfl (fun j _ => ?_)
  simp [List.getD_eq_getElem?_getD, List.getElem?_drop]

theorem range_ite_sum {M : Type} [AddCommMonoid M] (l : List M) (s e : ℕ)
    (he : e ≤ l.length) :
    ((List.range l.length).map
      (fun m => if s ≤ m ∧ m < e then l.getD m 0 else 0)).sum
      = ∑ m ∈ Finset.Ico s e, l.getD m 0 := by
  rw [listRangeSum, ← Finset.sum_filter]
  refine Finset.sum_congr ?_ (fun m _ => rfl)
  ext m
  simp only [Finset.mem_filter, Finset.mem_range, Finset.mem_Ico]
  omega

theorem windowSum_eq_slice (data : List ℚ) (i : ℕ) :
    windowSum data i
      = ((data.drop (i - 12)).take (min data.length (i + 13) - (i - 12))).sum := by
  unfold windowSum
  rw [List.map_congr_left
    (g := fun m => if i - 12 ≤ m ∧ m < min data.length (i + 13) then data.getD m 0 else 0)
    (fun m hm => by
      rw [List.mem_range] at hm
      exact if_congr (by omega) rfl rfl)]
  rw [range_ite_sum data (i - 12) (min data.length (i + 13)) (by omega),
    slice_sum data (i - 12) (min data.length (i + 13)) (by omega)]

theorem getD_map_range {M : Type} (n : ℕ) (f : ℕ → M) (d : M) (i : ℕ)
    (hi : i < n) : ((List.range n).map f).getD i d = f i := by
  rw [List.getD_eq_getElem?_getD, List.getElem?_map, List.getElem?_range hi]
  rfl

theorem convSame_getD (data : List ℚ) (i : ℕ) (hi : i < data.length) :
    (convSame data kernel25).getD i 0 = windowSum data i / 25 := by
  have hk : kernel25.length = 25 := by simp [kernel25]
  have h24 : (kernel25.length - 1) / 2 = 12 := by rw [hk]
  rw [convSame, h24, List.getD_eq_getElem?_getD, List.getElem?_take_of_lt hi,
    List.getElem?_drop]
  have hfull : 12 + i < data.length + kernel25.length - 1 := by rw [hk]; omega
  rw [convFull, List.getElem?_map, List.getElem?_range hfull]
  show ((List.range data.length).map
      (fun m => data.getD m 0 *
        (if m ≤ 12 + i then kernel25.getD (12 + i - m) 0 else 0))).sum = _
  rw [List.map_congr_left
    (g := fun m => (if i ≤ m + 12 ∧ m ≤ i + 12 then data.getD m 0 else 0) * (1 / 25))
    (fun m hm => by
      rw [List.mem_range] at hm
      have hker : ∀ k, kernel25.getD k 0 = if k < 25 then (1 : ℚ) / 25 else 0 := by
        intro k
        rw [kernel25, List.getD_eq_getElem?_getD, List.getElem?_replicate]
        split <;> rfl
      show data.getD m 0 * (if m ≤ 12 + i then kernel25.getD (12 + i - m) 0 else 0)
          = (if i ≤ m + 12 ∧ m ≤ i + 12 then data.getD m 0 else 0) * (1 / 25)
      by_cases hc : i ≤ m + 12 ∧ m ≤ i + 12
      · rw [if_pos (show m ≤ 12 + i by omega), hker,
          if_pos (show 12 + i - m < 25 by omega), if_pos hc]
      · rw [if_neg hc]
        by_cases h1 : m ≤ 12 + i
        · rw [if_pos h1, hker, if_neg (show ¬12 + i - m < 25 by omega),
            mul_zero, zero_mul]
        · rw [if_neg h1, mul_zero, zero_mul])]
  rw [List.sum_map_mul_right]
  rw [← windowSum]
  rw [mul_one_div]

/-- The filter output at an in-range index: the raw value minus the clamped
window sum divided by the full width 25 (numpy's `mode='same'` zero-pads at
the edges: the divisor stays 25 even where the window is clipped). -/
theorem baselineFilter_getD (data : List ℚ) (i : ℕ) (hi : i < data.length) :
    (baselineFilter data).getD i 0 = data.getD i 0 - windowSum data i / 25 := by
  rw [baselineFilter, getD_map_range _ _ _ _ hi, convSame_getD data i hi]

/-- Elementwise cast of an integer sample window to rationals (the model of
feeding the integer buffer to numpy's float arithmetic). -/
def castQ (f : List ℤ) : List ℚ := f.map (fun (z : ℤ) => (z : ℚ))

/-- Elementwise scaling-down of the integer filter output by 25. -/
def castQdiv25 (f : List ℤ) : List ℚ := f.map (fun (z : ℤ) => (z : ℚ) / 25)

@[simp] theorem castQ_length (f : List ℤ) : (castQ f).length = f.length := by
  simp [castQ]

theorem getD_castQ (f : List ℤ) (i : ℕ) (hi : i < f.length) :
    (castQ f).getD i 0 = ((f.getD i 0 : ℤ) : ℚ) := by
  rw [castQ, List.getD_eq_getElem?_getD, List.getElem?_map, List.getD_eq_getElem?_getD]
  cases h : f[i]? with
  | none => rw [List.getElem?_eq_none_iff] at h; omega
  | some a => rfl

theorem cast_list_sum (l : List ℤ) : ((l.sum : ℤ) : ℚ) = (castQ l).sum := by
  rw [castQ]
  induction l with
  | nil => simp
  | cons x xs ih => push_cast [ih]; simp

theorem windowSum_castQ (f : List ℤ) (i : ℕ) :
    windowSum (castQ f) i = ((windowSumZ f i : ℤ) : ℚ) := by
  rw [windowSum_eq_slice, windowSumZ, cast_list_sum, castQ]
  simp only [List.length_map, List.map_take, List.map_drop, castQ]

/-- The baseline filter of an integer window is the 25-times-scaled integer
filter with every entry divided by 25. -/
theorem baselineFilter_castQ (f : List ℤ) :
    baselineFilter (castQ f) = castQdiv25 (scaledFilter f) := by
  rw [baselineFilter, castQdiv25, scaledFilter, List.map_map, castQ_length]
  refine List.map_congr_left (fun i hi => ?_)
  rw [List.mem_range] at hi
  rw [convSame_getD _ i (by simpa using hi), windowSum_castQ,
    getD_castQ f i hi]
  show ((f.getD i 0 : ℤ) : ℚ) - _ = ((25 * f.getD i 0 - windowSumZ f i : ℤ) : ℚ) / 25
  push_cast
  ring

/-! ## Peak detector (`gui.py` lines 226-240)

```
signal_mean = np.mean(filtered_data); signal_std = np.std(filtered_data)
threshold = signal_mean + 1.5 * signal_std
for i in range(5, len(filtered_data)-5):
    if (filtered_data[i] > threshold and
        filtered_data[i] > filtered_data[i-1] and
        filtered_data[i] > filtered_data[i+1]):
        window_start = max(0, i-15); window_end = min(len(filtered_data), i+15)
        if filtered_data[i] == max(filtered_data[window_start:window_end]):
            peaks.append(i)
```

The comparison against `threshold` (which contains the square root
`signal_std`) is embedded as the equivalent rational comparison
`0 < x - mean ∧ (9/4)·var < (x - mean)²` — see `aboveThr_iff_real`. -/

/-- `np.mean` of the window. -/
def signalMean (w : List ℚ) : ℚ := w.sum / (w.length : ℚ)

/-- Mean of squared deviations from a given centre (so that the centre,
computed once as in the source, can be substituted during evaluation). -/
def signalVarAux (w : List ℚ) (μ : ℚ) : ℚ :=
  (w.map (fun x => (x - μ) * (x - μ))).sum / (w.length : ℚ)

/-- `np.std(w)^2`: the population variance of the window. -/
def signalVar (w : List ℚ) : ℚ := signalVarAux w (signalMean w)

/-- Python `max` over a nonempty sequence (`0` for the never-occurring empty
case). -/
def listMax : List ℚ → ℚ
  | [] => 0
  | x :: xs => xs.foldl max x

/-- The slice `filtered_data[max(0,i-15) : min(len,i+15)]`. -/
def vicinity (w : List ℚ) (i : ℕ) : List ℚ :=
  (w.drop (i - 15)).take (min w.length (i + 15) - (i - 15))

/-- The candidate scan with the threshold centre `μ` and variance `v` computed
once up front, as in the source. -/
def peaksAux (w : List ℚ) (μ v : ℚ) : List ℕ :=
  (List.range' 5 (w.length - 10)).filter (fun i =>
    decide (0 < w.getD i 0 - μ) &&
    decide ((9 / 4) * v < (w.getD i 0 - μ) * (w.getD i 0 - μ)) &&
    decide (w.getD (i - 1) 0 < w.getD i 0) &&
    decide (w.getD (i + 1) 0 < w.getD i 0) &&
    decide (w.getD i 0 = listMax (vicinity w i)))

/-- The detected peak indices of a filtered window, in ascending scan
order. -/
def peakList (w : List ℚ) : List ℕ := peaksAux w (signalMean w) (signalVar w)

/-- The rational threshold test `0 < x - μ ∧ (9/4)·v < (x-μ)²` used in
`peaksAux` is exactly numpy's `x > μ + 1.5·std` with `std = √v`. -/
theorem aboveThr_iff_real (x μ v : ℚ) (hv : 0 ≤ v) :
    ((μ : ℝ) + 1.5 * Real.sqrt (v : ℝ) < (x : ℝ))
      ↔ (0 < x - μ ∧ (9 / 4) * v < (x - μ) * (x - μ)) := by
  have hs : (0 : ℝ) ≤ Real.sqrt (v : ℝ) := Real.sqrt_nonneg _
  constructor
  · intro h
    have hd : (1.5 : ℝ) * Real.sqrt (v : ℝ) < (x : ℝ) - (μ : ℝ) := by linarith
    have hdpos : (0 : ℝ) < (x : ℝ) - (μ : ℝ) := by nlinarith
    have hsq : (1.5 * Real.sqrt (v : ℝ)) * (1.5 * Real.sqrt (v : ℝ))
        < ((x : ℝ) - μ) * ((x : ℝ) - μ) :=
      mul_self_lt_mul_self (by positivity) hd
    rw [show (1.5 * Real.sqrt (v : ℝ)) * (1.5 * Real.sqrt (v : ℝ))
        = (9 / 4) * (Real.sqrt (v : ℝ) * Real.sqrt (v : ℝ)) by ring,
      Real.mul_self_sqrt (by exact_mod_cast hv)] at hsq
    constructor
    · have : (0 : ℝ) < ((x - μ : ℚ) : ℝ) := by push_cast; linarith
      exact_mod_cast this
    · have : (((9 / 4) * v : ℚ) : ℝ) < (((x - μ) * (x - μ) : ℚ) : ℝ) := by
        push_cast
        linarith
      exact_mod_cast this
  · rintro ⟨h1, h2⟩
    have h1r : (0 : ℝ) < (x : ℝ) - μ := by
      have : ((0 : ℚ) : ℝ) < ((x - μ : ℚ) : ℝ) := by exact_mod_cast h1
      push_cast at this
      linarith
    have h2r : (9 / 4 : ℝ) * (v : ℝ) < ((x : ℝ) - μ) * ((x : ℝ) - μ) := by
      have : (((9 / 4) * v : ℚ) : ℝ) < (((x - μ) * (x - μ) : ℚ) : ℝ) := by
        exact_mod_cast h2
      push_cast at this
      linarith
    have hlt : Real.sqrt (v : ℝ) < ((x : ℝ) - μ) / 1.5 := by
      rw [Real.sqrt_lt' (by positivity)]
      rw [div_pow]
      rw [lt_div_iff₀ (by norm_num)]
      nlinarith
    have : 1.5 * Real.sqrt (v : ℝ) < (x : ℝ) - μ := by
      rw [lt_div_iff₀ (by norm_num)] at hlt
      linarith
    linarith

/-! ### Computational (integer) form of the detector -/

/-- Python `max` over a nonempty integer sequence. -/
def listMaxZ : List ℤ → ℤ
  | [] => 0
  | x :: xs => xs.foldl max x

/-- The vicinity slice on the integer (scaled) filter. -/
def vicinityZ (f : List ℤ) (i : ℕ) : List ℤ :=
  (f.drop (i - 15)).take (min f.length (i + 15) - (i - 15))

/-- `Σ_j (L·f_j - S)²`: the numerator of the variance after clearing the
denominators (`S = Σ f`, `L` the length). -/
def sumQ (f : List ℤ) (S : ℤ) : ℤ :=
  (f.map (fun z => ((f.length : ℤ) * z - S) * ((f.length : ℤ) * z - S))).sum

/-- The candidate scan on the scaled integer filter with the window sum `S`
and the variance numerator `Q` precomputed. -/
def peaksZAux (f : List ℤ) (S Q : ℤ) : List ℕ :=
  (List.range' 5 (f.length - 10)).filter (fun i =>
    decide (S < (f.length : ℤ) * f.getD i 0) &&
    decide (9 * Q < 4 * (f.length : ℤ) *
      (((f.length : ℤ) * f.getD i 0 - S) * ((f.length : ℤ) * f.getD i 0 - S))) &&
    decide (f.getD (i - 1) 0 < f.getD i 0) &&
    decide (f.getD (i + 1) 0 < f.getD i 0) &&
    decide (f.getD i 0 = listMaxZ (vicinityZ f i)))

/-- The peak indices computed from the scaled integer filter. -/
def peaksZ (f : List ℤ) : List ℕ := peaksZAux f f.sum (sumQ f f.sum)

@[simp] theorem castQdiv25_length (f : List ℤ) :
    (castQdiv25 f).length = f.length := by
  simp [castQdiv25]

theorem getD_castQdiv25 (f : List ℤ) (i : ℕ) (hi : i < f.length) :
    (castQdiv25 f).getD i 0 = ((f.getD i 0 : ℤ) : ℚ) / 25 := by
  rw [castQdiv25, List.getD_eq_getElem?_getD, List.getElem?_map,
    List.getD_eq_getElem?_getD]
  cases h : f[i]? with
  | none => rw [List.getElem?_eq_none_iff] at h; omega
  | some a => rfl

theorem sum_castQdiv25 (f : List ℤ) :
    (castQdiv25 f).sum = ((f.sum : ℤ) : ℚ) / 25 := by
  rw [castQdiv25]
  induction f with
  | nil => simp
  | cons x xs ih => rw [List.map_cons, List.sum_cons, ih, List.sum_cons]; push_cast; ring

theorem signalMean_castQdiv25 (f : List ℤ) :
    signalMean (castQdiv25 f) = ((f.sum : ℤ) : ℚ) / (25 * (f.length : ℚ)) := by
  rw [signalMean, sum_castQdiv25, castQdiv25_length, div_div]

theorem cast_sum_map (f : List ℤ) (g : ℤ → ℤ) :
    (((f.map g).sum : ℤ) : ℚ) = (f.map (fun z => ((g z : ℤ) : ℚ))).sum := by
  rw [cast_list_sum, castQ, List.map_map]
  rfl

theorem signalVar_castQdiv25 (f : List ℤ) (hf : f.length ≠ 0) :
    signalVar (castQdiv25 f)
      = ((sumQ f f.sum : ℤ) : ℚ)
        / (625 * (f.length : ℚ) * (f.length : ℚ) * (f.length : ℚ)) := by
  have hL : ((f.length : ℚ)) ≠ 0 := Nat.cast_ne_zero.mpr hf
  rw [signalVar, signalMean_castQdiv25, signalVarAux, castQdiv25_length, castQdiv25,
    List.map_map]
  rw [List.map_congr_left
    (g := fun z => ((((f.length : ℤ) * z - f.sum) * ((f.length : ℤ) * z - f.sum) : ℤ) : ℚ)
      * (1 / (625 * (f.length : ℚ) * (f.length : ℚ))))
    (fun z _ => by
      show ((z : ℚ) / 25 - (f.sum : ℚ) / (25 * (f.length : ℚ)))
          * ((z : ℚ) / 25 - (f.sum : ℚ) / (25 * (f.length : ℚ))) = _
      push_cast
      field_simp
      ring)]
  rw [List.sum_map_mul_right, sumQ, cast_sum_map]
  rw [List.map_congr_left
    (g := fun z => ((((f.length : ℤ) * z - f.sum) * ((f.length : ℤ) * z - f.sum) : ℤ) : ℚ))
    (fun z _ => rfl)]
  field_simp

theorem max_castdiv25 (a b : ℤ) :
    max ((a : ℚ) / 25) ((b : ℚ) / 25) = ((max a b : ℤ) : ℚ) / 25 := by
  rcases le_total a b with h | h
  · rw [max_eq_right h, max_eq_right]
    exact div_le_div_of_nonneg_right (by exact_mod_cast h) (by norm_num)
  · rw [max_eq_left h, max_eq_left]
    exact div_le_div_of_nonneg_right (by exact_mod_cast h) (by norm_num)

theorem foldl_max_castdiv25 :
    ∀ (xs : List ℤ) (x : ℤ),
      (xs.map (fun (z : ℤ) => (z : ℚ) / 25)).foldl max ((x : ℚ) / 25)
        = ((xs.foldl max x : ℤ) : ℚ) / 25
  | [], _ => rfl
  | y :: ys, x => by
    rw [List.map_cons, List.foldl_cons, List.foldl_cons, max_castdiv25,
      foldl_max_castdiv25 ys (max x y)]

theorem listMax_vicinity_castQdiv25 (f : List ℤ) (i : ℕ)
    (h : vicinityZ f i ≠ []) :
    listMax (vicinity (castQdiv25 f) i)
      = ((listMaxZ (vicinityZ f i) : ℤ) : ℚ) / 25 := by
  have hv : vicinity (castQdiv25 f) i
      = (vicinityZ f i).map (fun (z : ℤ) => (z : ℚ) / 25) := by
    simp [vicinity, vicinityZ, castQdiv25, List.map_take, List.map_drop]
  rw [hv]
  cases hx : vicinityZ f i with
  | nil => exact absurd hx h
  | cons a as =>
    rw [List.map_cons]
    show (as.map _).foldl max ((a : ℚ) / 25) = _
    rw [foldl_max_castdiv25 as a]
    rfl

/-- The detector run on the scaled-down integer filter agrees with the pure
integer computation `peaksZ`. -/
theorem peakList_castQdiv25 (f : List ℤ) :
    peakList (castQdiv25 f) = peaksZ f := by
  rcases Nat.lt_or_ge f.length 11 with hlen | hlen
  · have h1 : (castQdiv25 f).length - 10 = 0 := by simp; omega
    have h2 : f.length - 10 = 0 := by omega
    rw [peakList, peaksAux, peaksZ, peaksZAux, h1, h2]
    rfl
  · have hf0 : f.length ≠ 0 := by omega
    have hLpos : (0 : ℚ) < (f.length : ℚ) := by
      exact_mod_cast Nat.pos_of_ne_zero hf0
    rw [peakList, peaksZ, signalMean_castQdiv25, signalVar_castQdiv25 f hf0,
      peaksAux, peaksZAux, castQdiv25_length]
    apply List.filter_congr
    intro i hi
    rw [List.mem_range'] at hi
    obtain ⟨j, hj, rfl⟩ := hi
    set i := 5 + 1 * j with hidef
    have hi5 : 5 ≤ i := by omega
    have hiub : i < f.length - 5 := by omega
    have hiL : i < f.length := by omega
    have him1 : i - 1 < f.length := by omega
    have hip1 : i + 1 < f.length := by omega
    -- the common numerator `L·f[i] - S`
    have key : (castQdiv25 f).getD i 0
        - (f.sum : ℚ) / (25 * (f.length : ℚ))
        = (((f.length : ℤ) * f.getD i 0 - f.sum : ℤ) : ℚ)
          / (25 * (f.length : ℚ)) := by
      rw [getD_castQdiv25 f i hiL]
      push_cast
      field_simp
      ring
    have e1 : (0 < (castQdiv25 f).getD i 0 - (f.sum : ℚ) / (25 * (f.length : ℚ)))
        ↔ (f.sum < (f.length : ℤ) * f.getD i 0) := by
      rw [key, lt_div_iff₀ (by positivity), zero_mul]
      rw [show ((0 : ℚ) < (((f.length : ℤ) * f.getD i 0 - f.sum : ℤ) : ℚ))
          ↔ ((0 : ℤ) < (f.length : ℤ) * f.getD i 0 - f.sum) from by
        exact_mod_cast Iff.rfl]
      omega
    have e2 : ((9 / 4) * (((sumQ f f.sum : ℤ) : ℚ)
          / (625 * (f.length : ℚ) * (f.length : ℚ) * (f.length : ℚ)))
        < ((castQdiv25 f).getD i 0 - (f.sum : ℚ) / (25 * (f.length : ℚ)))
          * ((castQdiv25 f).getD i 0 - (f.sum : ℚ) / (25 * (f.length : ℚ))))
        ↔ (9 * sumQ f f.sum < 4 * (f.length : ℤ)
            * (((f.length : ℤ) * f.getD i 0 - f.sum)
              * ((f.length : ℤ) * f.getD i 0 - f.sum))) := by
      rw [key]
      set DQ : ℚ := (((f.length : ℤ) * f.getD i 0 - f.sum : ℤ) : ℚ) with hDQ
      set QQ : ℚ := ((sumQ f f.sum : ℤ) : ℚ) with hQQ
      set LQ : ℚ := (f.length : ℚ) with hLQ
      rw [show (9 / 4 : ℚ) * (QQ / (625 * LQ * LQ * LQ))
          = (9 * QQ) / (2500 * LQ * LQ * LQ) by ring]
      rw [show (DQ / (25 * LQ)) * (DQ / (25 * LQ))
          = (DQ * DQ) / (625 * LQ * LQ) by ring]
      rw [div_lt_div_iff (by positivity) (by positivity)]
      rw [show DQ * DQ * (2500 * LQ * LQ * LQ)
          = (4 * LQ * (DQ * DQ)) * (625 * LQ * LQ) by ring]
      rw [show 9 * QQ * (625 * LQ * LQ) = (9 * QQ) * (625 * LQ * LQ) from rfl]
      rw [mul_lt_mul_right (by positivity)]
      rw [hDQ, hQQ, hLQ]
      rw [show ((f.length : ℚ)) = (((f.length : ℤ) : ℚ)) from by push_cast; rfl]
      rw [show (9 * ((sumQ f f.sum : ℤ) : ℚ)
          < 4 * (((f.length : ℤ)) : ℚ)
            * ((((f.length : ℤ) * f.getD i 0 - f.sum : ℤ) : ℚ)
              * (((f.length : ℤ) * f.getD i 0 - f.sum : ℤ) : ℚ)))
          ↔ (9 * sumQ f f.sum < 4 * (f.length : ℤ)
            * (((f.length : ℤ) * f.getD i 0 - f.sum)
              * ((f.length : ℤ) * f.getD i 0 - f.sum))) from by
        exact_mod_cast Iff.rfl]
    have e3 : ((castQdiv25 f).getD (i - 1) 0 < (castQdiv25 f).getD i 0)
        ↔ (f.getD (i - 1) 0 < f.getD i 0) := by
      rw [getD_castQdiv25 f _ him1, getD_castQdiv25 f i hiL,
        div_lt_div_right (by norm_num)]
      exact_mod_cast Iff.rfl
    have e4 : ((castQdiv25 f).getD (i + 1) 0 < (castQdiv25 f).getD i 0)
        ↔ (f.getD (i + 1) 0 < f.getD i 0) := by
      rw [getD_castQdiv25 f _ hip1, getD_castQdiv25 f i hiL,
        div_lt_div_right (by norm_num)]
      exact_mod_cast Iff.rfl
    have hvne : vicinityZ f i ≠ [] := by
      rw [← List.length_pos_iff_ne_nil]
      simp only [vicinityZ, List.length_take, List.length_drop]
      omega
    have e5 : ((castQdiv25 f).getD i 0 = listMax (vicinity (castQdiv25 f) i))
        ↔ (f.getD i 0 = listMaxZ (vicinityZ f i)) := by
      rw [getD_castQdiv25 f i hiL, listMax_vicinity_castQdiv25 f i hvne,
        div_eq_div_iff (by norm_num) (by norm_num),
        mul_left_inj' (by norm_num : (25 : ℚ) ≠ 0)]
      exact_mod_cast Iff.rfl
    rw [decide_eq_decide.mpr e1, decide_eq_decide.mpr e2, decide_eq_decide.mpr e3,
      decide_eq_decide.mpr e4, decide_eq_decide.mpr e5]

/-! ## Heart-rate estimator (`gui.py` lines 242-263)

```
if len(peaks) >= 2:
    intervals = [peaks[i+1] - peaks[i] for i in range(len(peaks)-1)]
    avg_interval_sec = np.mean(intervals) / SAMPLE_RATE
    heart_rate = int(60 / avg_interval_sec)
    if MIN_HEART_RATE <= heart_rate <= MAX_HEART_RATE:
        self.heart_rate_history.append(heart_rate)
        avg_hr = int(sum(self.heart_rate_history) / len(self.heart_rate_history))
        self.hr_label.setText(f"Heart Rate: {avg_hr} BPM")
        ...
        return
self.hr_label.setText("Heart Rate: -- BPM")
```
The reported label is modelled as `Option ℤ` (`none` = `"-- BPM"`). -/

/-- `[peaks[i+1] - peaks[i] for i in range(len(peaks)-1)]`. -/
def intervals (pks : List ℕ) : List ℤ :=
  (List.range (pks.length - 1)).map
    (fun i => (pks.getD (i + 1) 0 : ℤ) - (pks.getD i 0 : ℤ))

/-- `int(60 / (np.mean(intervals) / SAMPLE_RATE))`. -/
def computedHR (pks : List ℕ) : ℤ :=
  truncInt ((60 : ℚ)
    / ((((intervals pks).sum : ℚ) / ((intervals pks).length : ℚ)) / 250))

/-- The estimator stage: new history and reported label. -/
def estimateHR (pks : List ℕ) (hist : List ℤ) : List ℤ × Option ℤ :=
  if 2 ≤ pks.length then
    if 40 ≤ computedHR pks ∧ computedHR pks ≤ 200 then
      (histPush hist (computedHR pks),
       some (truncInt (((histPush hist (computedHR pks)).sum : ℚ)
         / ((histPush hist (computedHR pks)).length : ℚ))))
    else (hist, none)
  else (hist, none)

/-- `update_heart_rate` (`gui.py` lines 220-263): filter, peak detection,
estimation; returns the new history and the reported label. -/
def update_heart_rate (data : List ℤ) (hist : List ℤ) : List ℤ × Option ℤ :=
  estimateHR (peakList (baselineFilter (castQ data))) hist

/-- `update_heart_rate` computed along the integer path. -/
theorem update_heart_rate_int (data hist : List ℤ) :
    update_heart_rate data hist = estimateHR (peaksZ (scaledFilter data)) hist := by
  rw [update_heart_rate, baselineFilter_castQ, peakList_castQdiv25]

/-! ## One ingestion tick (`gui.py` `update_plot`, lines 159-218) -/

/-- The mutable state of the app that the pipeline touches. -/
structure AppState where
  buffer : List ℤ
  history : List ℤ
  hrLabel : Option ℤ
deriving DecidableEq, Repr

/-- The per-tick observable outputs. -/
structure TickOut where
  leadOff : Bool
  plotData : Option (List ℤ)
  hrRan : Bool
deriving DecidableEq, Repr

/-- One tick that reads a nonempty byte chunk: parse the lines, push readings,
set the quality indicator, refresh the plot only when `new_data_count > 0`,
and (once per second, quality good, buffer ≥ `SAMPLE_RATE`) recompute the
heart rate.  `elapsed1` models `now - self.last_update_time >= 1.0`. -/
def tick (chunk : String) (elapsed1 : Bool) (s : AppState) : AppState × TickOut :=
  if 0 < (processLines (chunkLines chunk) (s.buffer, false, 0)).2.2 then
    if elapsed1 = true
        ∧ (processLines (chunkLines chunk) (s.buffer, false, 0)).2.1 = false
        ∧ 250 ≤ (processLines (chunkLines chunk) (s.buffer, false, 0)).1.length then
      (⟨(processLines (chunkLines chunk) (s.buffer, false, 0)).1,
        (update_heart_rate (processLines (chunkLines chunk) (s.buffer, false, 0)).1
          s.history).1,
        (update_heart_rate (processLines (chunkLines chunk) (s.buffer, false, 0)).1
          s.history).2⟩,
       ⟨(processLines (chunkLines chunk) (s.buffer, false, 0)).2.1,
        some (processLines (chunkLines chunk) (s.buffer, false, 0)).1, true⟩)
    else
      (⟨(processLines (chunkLines chunk) (s.buffer, false, 0)).1, s.history, s.hrLabel⟩,
       ⟨(processLines (chunkLines chunk) (s.buffer, false, 0)).2.1,
        some (processLines (chunkLines chunk) (s.buffer, false, 0)).1, false⟩)
  else
    (⟨(processLines (chunkLines chunk) (s.buffer, false, 0)).1, s.history, s.hrLabel⟩,
     ⟨(processLines (chunkLines chunk) (s.buffer, false, 0)).2.1, none, false⟩)

/-- The heart-rate histories reachable by the app: empty initially, empty
again after `toggle_connection`'s `heart_rate_history.clear()` (line 144),
and otherwise mutated only by the estimator stage of `update_heart_rate`
(line 249). -/
inductive ReachableHist : List ℤ → Prop where
  | init : ReachableHist []
  | clear (h : List ℤ) : ReachableHist h → ReachableHist []
  | step (h : List ℤ) (pks : List ℕ) : ReachableHist h →
      ReachableHist (estimateHR pks h).1

/-! ## Evaluation helpers -/

set_option maxRecDepth 40000

theorem truncInt_intCast (n : ℤ) : truncInt ((n : ℚ)) = n := by
  rw [truncInt]
  split <;> simp

theorem truncInt_div_nonneg (a : ℤ) (b : ℕ) (ha : 0 ≤ a) :
    truncInt ((a : ℚ) / (b : ℚ)) = a / (b : ℤ) := by
  rw [truncInt, if_neg (not_lt.mpr (div_nonneg (by exact_mod_cast ha) (by positivity)))]
  exact Rat.floor_intCast_div_natCast a b

theorem intervals_length (pks : List ℕ) : (intervals pks).length = pks.length - 1 := by
  simp [intervals]

/-- Telescoping: the consecutive interval deltas sum to last minus first. -/
theorem intervals_sum (pks : List ℕ) :
    (intervals pks).sum = (pks.getD (pks.length - 1) 0 : ℤ) - (pks.getD 0 0 : ℤ) := by
  rw [intervals, listRangeSum]
  exact Finset.sum_range_sub (fun i => (pks.getD i 0 : ℤ)) (pks.length - 1)

/-- The computed heart rate of a two-peak list: `15000 / interval`
(`60 s/min × 250 samples/s = 15000` samples per minute). -/
theorem computedHR_pair (a b : ℕ) (hab : a ≤ b) :
    computedHR [a, b] = 15000 / ((b - a : ℕ) : ℤ) := by
  have h1 : intervals [a, b] = [(b : ℤ) - (a : ℤ)] := by
    simp [intervals, List.range_succ]
  rw [computedHR, h1]
  rw [show ([(b : ℤ) - (a : ℤ)].sum) = (b : ℤ) - (a : ℤ) by simp]
  rw [show (([(b : ℤ) - (a : ℤ)] : List ℤ).length : ℚ) = 1 by simp]
  rw [show ((b : ℤ) - (a : ℤ)) = ((b - a : ℕ) : ℤ) by omega]
  rw [show ((60 : ℚ) / ((((b - a : ℕ) : ℤ) : ℚ) / 1 / 250))
      = ((15000 : ℤ) : ℚ) / ((b - a : ℕ) : ℚ) by
    push_cast
    rw [div_one, div_div_eq_mul_div]
    norm_num]
  exact truncInt_div_nonneg 15000 (b - a) (by norm_num)

theorem estimateHR_accept (pks : List ℕ) (hist : List ℤ) (hr : ℤ)
    (hhr : computedHR pks = hr) (hlen : 2 ≤ pks.length)
    (h1 : 40 ≤ hr) (h2 : hr ≤ 200) :
    estimateHR pks hist
      = (histPush hist hr,
         some (truncInt (((histPush hist hr).sum : ℚ)
           / ((histPush hist hr).length : ℚ)))) := by
  rw [estimateHR, if_pos hlen, hhr, if_pos ⟨h1, h2⟩]

/-- Evaluation of the reported smoothed label on a concrete history. -/
theorem report_eval (h : List ℤ) (s : ℤ) (n : ℕ) (r : ℤ)
    (hs : h.sum = s) (hn : h.length = n) (hnn : 0 ≤ s) (hr : s / (n : ℤ) = r) :
    truncInt ((h.sum : ℚ) / (h.length : ℚ)) = r := by
  rw [hs, hn, truncInt_div_nonneg s n hnn, hr]

/-- `HeartRateEstimator` on the spec's example input `[0, 250, 500]` with an
empty prior history: BPM 60 accepted and reported. -/
theorem estimateHR_example60 : estimateHR [0, 250, 500] [] = ([60], some 60) := by
  have hhr : computedHR [0, 250, 500] = 60 := by
    have h1 : intervals [0, 250, 500] = [250, 250] := by decide
    rw [computedHR, h1]
    rw [show (([250, 250] : List ℤ).sum) = (500 : ℤ) by decide]
    rw [show ((([250, 250] : List ℤ).length : ℕ) : ℚ) = 2 by norm_num]
    rw [show ((60 : ℚ) / (((500 : ℤ) : ℚ) / 2 / 250)) = ((60 : ℤ) : ℚ) by push_cast; norm_num]
    exact truncInt_intCast 60
  rw [estimateHR_accept [0, 250, 500] [] 60 hhr (by decide) (by decide) (by decide)]
  rw [show histPush [] 60 = [60] from by decide]
  rw [report_eval [60] 60 1 60 (by decide) (by decide) (by decide) (by decide)]

/-! ## Concrete 250-sample window for the idempotence counterexample

Two spikes of height 1000 at indices 50 and 200 on a zero baseline; the
detector finds peaks `[50, 200]`, interval 150 samples = 0.6 s, BPM 100. -/

def data250 : List ℤ :=
  List.replicate 50 0 ++ [1000] ++ List.replicate 149 0 ++ [1000] ++
  List.replicate 49 0

/-- The 25-times-scaled filtered window of `data250`. -/
def filt250 : List ℤ :=
  List.replicate 38 0 ++ List.replicate 12 (-1000) ++ [24000] ++
  List.replicate 12 (-1000) ++ List.replicate 125 0 ++ List.replicate 12 (-1000) ++
  [24000] ++ List.replicate 12 (-1000) ++ List.replicate 37 0

theorem scaledFilter_data250 : scaledFilter data250 = filt250 := by decide

theorem peaksZ_filt250 : peaksZ filt250 = [50, 200] := by
  rw [peaksZ, show filt250.sum = 0 from by decide,
    show sumQ filt250 0 = 75000000000000 from by decide]
  decide

theorem computedHR_50_200 : computedHR [50, 200] = 100 := by
  rw [computedHR_pair 50 200 (by omega)]
  decide

/-- First run of the pipeline on `data250` with prior history `[40]`. -/
theorem uhr_data250_first :
    update_heart_rate data250 [40] = ([40, 100], some 70) := by
  rw [update_heart_rate_int, scaledFilter_data250, peaksZ_filt250]
  rw [estimateHR_accept [50, 200] [40] 100 computedHR_50_200 (by decide)
    (by decide) (by decide)]
  rw [show histPush [40] 100 = [40, 100] from by decide]
  rw [report_eval [40, 100] 140 2 70 (by decide) (by decide) (by decide) (by decide)]

/-- Second run on the same snapshot, starting from the history the first run
left behind. -/
theorem uhr_data250_second :
    update_heart_rate data250 [40, 100] = ([40, 100, 100], some 80) := by
  rw [update_heart_rate_int, scaledFilter_data250, peaksZ_filt250]
  rw [estimateHR_accept [50, 200] [40, 100] 100 computedHR_50_200 (by decide)
    (by decide) (by decide)]
  rw [show histPush [40, 100] 100 = [40, 100, 100] from by decide]
  rw [report_eval [40, 100, 100] 240 3 80 (by decide) (by decide) (by decide)
    (by decide)]

/-! ## Further helpers for the claims -/

theorem getD_replicate {α : Type} (c d : α) (L i : ℕ) (h : i < L) :
    (List.replicate L c).getD i d = c := by
  rw [List.getD_eq_getElem?_getD, List.getElem?_replicate, if_pos h]
  rfl

/-- On a constant window the clamped window at an interior index holds the
full 25 copies. -/
theorem windowSum_replicate_interior (c : ℚ) (L i : ℕ) (h1 : 12 ≤ i)
    (h2 : i + 12 < L) :
    windowSum (List.replicate L c) i = 25 * c := by
  rw [windowSum_eq_slice]
  simp only [List.length_replicate, List.drop_replicate, List.take_replicate]
  rw [show min L (i + 13) - (i - 12) = 25 by omega,
    show min 25 (L - (i - 12)) = 25 by omega]
  rw [List.sum_replicate]
  rw [nsmul_eq_mul]
  norm_num

/-- When the estimator reports unavailable it has not touched the history. -/
theorem estimateHR_none_fst (pks : List ℕ) (hist : List ℤ)
    (h : (estimateHR pks hist).2 = none) : (estimateHR pks hist).1 = hist := by
  by_cases hl : 2 ≤ pks.length
  · by_cases hb : 40 ≤ computedHR pks ∧ computedHR pks ≤ 200
    · rw [estimateHR, if_pos hl, if_pos hb] at h
      simp at h
    · rw [estimateHR, if_pos hl, if_neg hb]
  · rw [estimateHR, if_neg hl]

theorem le_foldl_max (xs : List ℚ) :
    ∀ a : ℚ, a ≤ xs.foldl max a ∧ ∀ x ∈ xs, x ≤ xs.foldl max a := by
  induction xs with
  | nil => intro a; exact ⟨le_refl _, by simp⟩
  | cons y ys ih =>
    intro a
    refine ⟨le_trans (le_max_left a y) (ih (max a y)).1, fun x hx => ?_⟩
    rcases List.mem_cons.mp hx with rfl | hx'
    · exact le_trans (le_max_right a x) (ih (max a x)).1
    · exact (ih (max a y)).2 x hx'

theorem le_listMax (l : List ℚ) (x : ℚ) (hx : x ∈ l) : x ≤ listMax l := by
  cases l with
  | nil => simp at hx
  | cons a as =>
    rcases List.mem_cons.mp hx with rfl | hx'
    · exact (le_foldl_max as x).1
    · exact (le_foldl_max as a).2 x hx'

/-- Every sample of the (truncated) vicinity slice is an element of it. -/
theorem mem_vicinity (w : List ℚ) (i j : ℕ) (h1 : i ≤ j + 15)
    (h2 : j < min w.length (i + 15)) : w.getD j 0 ∈ vicinity w i := by
  have hjL : j < w.length := lt_of_lt_of_le h2 (min_le_left _ _)
  have hkey : (vicinity w i)[j - (i - 15)]? = some (w.getD j 0) := by
    rw [vicinity, List.getElem?_take_of_lt (by omega), List.getElem?_drop,
      show (i - 15) + (j - (i - 15)) = j by omega,
      List.getElem?_eq_getElem hjL, List.getD_eq_getElem?_getD,
      List.getElem?_eq_getElem hjL]
    rfl
  exact List.getElem?_mem hkey

/-- The 21-sample filtered window (in scaled integer form) exhibiting the
truncated vicinity: value 100 at index 5, value 200 at index 20 = 5 + 15. -/
def w21z : List ℤ := List.replicate 5 0 ++ [2500] ++ List.replicate 14 0 ++ [5000]

theorem peaksW21 : peakList (castQdiv25 w21z) = [5] := by
  rw [peakList_castQdiv25]
  decide

/-- Every entry of a reachable heart-rate history is within the
physiological bounds. -/
theorem hist_mem_bounds : ∀ h : List ℤ, ReachableHist h →
    ∀ x ∈ h, 40 ≤ x ∧ x ≤ 200 := by
  intro h hr
  induction hr with
  | init => simp
  | clear h' _ _ => simp
  | step h' pks _ ih =>
    intro x hx
    by_cases hl : 2 ≤ pks.length
    · by_cases hb : 40 ≤ computedHR pks ∧ computedHR pks ≤ 200
      · rw [estimateHR, if_pos hl, if_pos hb] at hx
        have hx' : x ∈ histPush h' (computedHR pks) := hx
        rw [histPush] at hx'
        by_cases h5 : h'.length < 5
        · rw [if_pos h5] at hx'
          rcases List.mem_append.mp hx' with hx2 | hx2
          · exact ih x hx2
          · rw [List.mem_singleton] at hx2
            subst hx2
            exact hb
        · rw [if_neg h5] at hx'
          rcases List.mem_append.mp hx' with hx2 | hx2
          · exact ih x (List.mem_of_mem_tail hx2)
          · rw [List.mem_singleton] at hx2
            subst hx2
            exact hb
      · have he : (estimateHR pks h').1 = h' := by rw [estimateHR, if_pos hl, if_neg hb]
        rw [he] at hx
        exact ih x hx
    · have he : (estimateHR pks h').1 = h' := by rw [estimateHR, if_neg hl]
      rw [he] at hx
      exact ih x hx

/-! ## Claims -/

/-- C1 (counterexample): on the constant window of 25 samples of value 25 the
BaselineFilter output at index 0 is `12`, not `0` — numpy's `mode='same'`
zero-pads at the edges instead of shrinking the averaging window, so constant
input is not mapped to all zeros at the edges. -/
theorem c1_counterexample :
    (baselineFilter (List.replicate 25 (25 : ℚ))).getD 0 0 = 12
    ∧ ((12 : ℚ) ≠ 0) := by
  constructor
  · rw [baselineFilter_getD _ 0 (by simp)]
    rw [getD_replicate (25 : ℚ) 0 25 0 (by omega)]
    have hws : windowSum (List.replicate 25 (25 : ℚ)) 0 = 325 := by
      rw [windowSum_eq_slice]
      simp only [List.length_replicate, List.drop_replicate, List.take_replicate]
      rw [show min (min 25 (0 + 13) - (0 - 12)) (25 - (0 - 12)) = 13 by omega]
      rw [List.sum_replicate, nsmul_eq_mul]
      norm_num
    rw [hws]
    norm_num
  · norm_num

/-- C1 (amended): for every window, the BaselineFilter output at index `i`
is the raw value at `i` minus the sum of the samples in the width-25 window
centred at `i` (clamped to the window bounds) divided by the full width 25 —
numpy's `mode='same'` zero-pads rather than shrinking the divisor — and on a
constant input the output is zero exactly at the interior indices
(`12 ≤ i` and `i + 12 < L`). -/
theorem c1_baseline_zero_padding :
    (∀ (data : List ℚ) (i : ℕ), 25 ≤ data.length → i < data.length →
      (baselineFilter data).getD i 0 = data.getD i 0 - windowSum data i / 25)
    ∧ (∀ (c : ℚ) (L i : ℕ), 12 ≤ i → i + 12 < L →
      (baselineFilter (List.replicate L c)).getD i 0 = 0) := by
  constructor
  · intro data i _ hi
    exact baselineFilter_getD data i hi
  · intro c L i h1 h2
    rw [baselineFilter_getD _ i (by simp only [List.length_replicate]; omega)]
    rw [getD_replicate c 0 L i (by omega)]
    rw [windowSum_replicate_interior c L i h1 h2]
    rw [mul_div_cancel_left₀ c (by norm_num : (25 : ℚ) ≠ 0), sub_self]

/-- C1 (witness): the amended statement applied at a window of 30 copies of
7, at the edge index 3 and the interior index 14. -/
theorem c1_witness :
    ((baselineFilter (List.replicate 30 (7 : ℚ))).getD 3 0
      = (List.replicate 30 (7 : ℚ)).getD 3 0
        - windowSum (List.replicate 30 (7 : ℚ)) 3 / 25)
    ∧ (baselineFilter (List.replicate 30 (7 : ℚ))).getD 14 0 = 0 :=
  ⟨c1_baseline_zero_padding.1 (List.replicate 30 7) 3 (by simp) (by simp),
   c1_baseline_zero_padding.2 7 30 14 (by omega) (by omega)⟩

/-- C2 (counterexample): on the full 250-sample buffer `data250` (two clean
beats, accepted BPM 100) with prior history `[40]`, the first pipeline run
reports 70 but re-running it on the unchanged snapshot reports 80: the
accepted BPM is pushed into the bounded history again, so the smoothed
output changes. -/
theorem c2_counterexample :
    data250.length = 250
    ∧ update_heart_rate data250 [40] = ([40, 100], some 70)
    ∧ update_heart_rate data250 ((update_heart_rate data250 [40]).1)
      = ([40, 100, 100], some 80)
    ∧ some (70 : ℤ) ≠ some (80 : ℤ) := by
  refine ⟨by decide, uhr_data250_first, ?_, by decide⟩
  rw [uhr_data250_first]
  exact uhr_data250_second

/-- C2 (amended): re-running the heart-rate pipeline on an unchanged buffer
snapshot is an identity exactly when the first run reports unavailable (the
history is then untouched, so the rerun reproduces both outputs); when a BPM
is accepted the rerun pushes it into the history again and the smoothed
report can change, as the counterexample shows.  The waveform and the quality
indicator do not depend on this stage at all. -/
theorem c2_rerun_after_unavailable :
    ∀ (data hist : List ℤ), 25 ≤ data.length →
      (update_heart_rate data hist).2 = none →
      (update_heart_rate data hist).1 = hist
      ∧ update_heart_rate data ((update_heart_rate data hist).1)
        = update_heart_rate data hist := by
  intro data hist _ hnone
  have h1 : (update_heart_rate data hist).1 = hist :=
    estimateHR_none_fst _ _ hnone
  exact ⟨h1, by rw [h1]⟩

/-- C2 (witness): on a constant 25-sample window no peak is found, the run
reports unavailable, and the rerun is an identity. -/
theorem c2_witness :
    25 ≤ (List.replicate 25 (0 : ℤ)).length
    ∧ (update_heart_rate (List.replicate 25 0) [50]).2 = none
    ∧ (update_heart_rate (List.replicate 25 0) [50]).1 = [50]
    ∧ update_heart_rate (List.replicate 25 0)
        ((update_heart_rate (List.replicate 25 0) [50]).1)
      = update_heart_rate (List.replicate 25 0) [50] := by
  have hnone : (update_heart_rate (List.replicate 25 (0 : ℤ)) [50]).2 = none := by
    rw [update_heart_rate_int,
      show scaledFilter (List.replicate 25 0) = List.replicate 25 0 from by decide,
      show peaksZ (List.replicate 25 (0 : ℤ)) = [] from by decide,
      estimateHR, if_neg (by decide)]
  have h := c2_rerun_after_unavailable (List.replicate 25 0) [50] (by decide) hnone
  exact ⟨by decide, hnone, h.1, h.2⟩

/-- C3 (counterexample): in the 21-sample filtered window `castQdiv25 w21z`
the index 5 is emitted as a peak although the sample at offset `+15`
(index 20 = 5 + 15) strictly exceeds it: the Python slice
`filtered[max(0,i-15):min(len,i+15)]` excludes offset `+15`. -/
theorem c3_counterexample :
    5 ∈ peakList (castQdiv25 w21z)
    ∧ 20 = 5 + 15
    ∧ (castQdiv25 w21z).getD 5 0 < (castQdiv25 w21z).getD 20 0 := by
  refine ⟨?_, rfl, ?_⟩
  · rw [peaksW21]
    exact List.mem_singleton.mpr rfl
  · rw [getD_castQdiv25 _ 5 (by decide), getD_castQdiv25 _ 20 (by decide),
      show w21z.getD 5 0 = 2500 from by decide,
      show w21z.getD 20 0 = 5000 from by decide]
    norm_num

/-- C3 (amended): every emitted peak index `i` holds the maximum over the
vicinity `max(0, i-15) ≤ j < min(len, i+15)` — offsets `-15` through `+14`,
the sample at offset `+15` being excluded by the Python slice bound. -/
theorem c3_vicinity_maximum :
    ∀ (w : List ℚ) (i j : ℕ), i ∈ peakList w → i ≤ j + 15 →
      j < min w.length (i + 15) → w.getD j 0 ≤ w.getD i 0 := by
  intro w i j hmem hj1 hj2
  rw [peakList, peaksAux, List.mem_filter] at hmem
  obtain ⟨_, hpred⟩ := hmem
  simp only [Bool.and_eq_true, decide_eq_true_eq] at hpred
  rw [hpred.2]
  exact le_listMax _ _ (mem_vicinity w i j hj1 hj2)

/-- C3 (witness): the amended statement applied at the emitted peak 5 of
`castQdiv25 w21z` and the in-vicinity index 6. -/
theorem c3_witness :
    5 ∈ peakList (castQdiv25 w21z)
    ∧ 5 ≤ 6 + 15
    ∧ 6 < min (castQdiv25 w21z).length (5 + 15)
    ∧ (castQdiv25 w21z).getD 6 0 ≤ (castQdiv25 w21z).getD 5 0 := by
  have hm : 5 ∈ peakList (castQdiv25 w21z) := by
    rw [peaksW21]
    exact List.mem_singleton.mpr rfl
  have hlen : 6 < min (castQdiv25 w21z).length (5 + 15) := by
    rw [castQdiv25_length]
    decide
  exact ⟨hm, by omega, hlen, c3_vicinity_maximum _ 5 6 hm (by omega) hlen⟩

/-- C4 (counterexample): a tick whose batch is the single lead-off line
`"-1\n"` (one parsed event, zero valid readings) does not refresh the display
waveform: the source guards `setData` behind `if new_data_count > 0`. -/
theorem c4_counterexample :
    parseEvents "-1\n" = [SampleEvent.leadOff]
    ∧ (tick "-1\n" true ⟨[7], [], none⟩).2.plotData = none :=
  ⟨by decide, by decide⟩

/-- C4 (amended): in a tick that ingests a batch of bytes, the display
waveform is refreshed from the post-ingestion buffer snapshot if and only if
the batch contained at least one valid Reading (`new_data_count > 0`); with
zero valid readings the display is left untouched. -/
theorem c4_plot_refresh_guarded :
    ∀ (chunk : String) (e : Bool) (s : AppState),
      ((processLines (chunkLines chunk) (s.buffer, false, 0)).2.2 = 0 →
        (tick chunk e s).2.plotData = none)
      ∧ (0 < (processLines (chunkLines chunk) (s.buffer, false, 0)).2.2 →
        (tick chunk e s).2.plotData
          = some ((processLines (chunkLines chunk) (s.buffer, false, 0)).1)) := by
  intro chunk e s
  constructor
  · intro h0
    unfold tick
    rw [if_neg (by omega)]
  · intro hpos
    unfold tick
    rw [if_pos hpos]
    by_cases hc : e = true
        ∧ (processLines (chunkLines chunk) (s.buffer, false, 0)).2.1 = false
        ∧ 250 ≤ (processLines (chunkLines chunk) (s.buffer, false, 0)).1.length
    · rw [if_pos hc]
    · rw [if_neg hc]

/-- C4 (witness): a tick ingesting the single valid reading `"123\n"`
refreshes the plot with the new buffer snapshot. -/
theorem c4_witness :
    0 < (processLines (chunkLines "123\n") (([7] : List ℤ), false, 0)).2.2
    ∧ (tick "123\n" false ⟨[7], [], none⟩).2.plotData
      = some ((processLines (chunkLines "123\n") (([7] : List ℤ), false, 0)).1) :=
  ⟨by decide, (c4_plot_refresh_guarded "123\n" false ⟨[7], [], none⟩).2 (by decide)⟩

/-- C5: in every tick whose parsed batch contains a LeadOff event the
heart-rate step never runs: the history, the reported label and the
`hrRan` flag are untouched, regardless of buffer length and of the
1-second timer. -/
theorem c5_leadoff_gates_heart_rate :
    ∀ (chunk : String) (e : Bool) (s : AppState),
      (processLines (chunkLines chunk) (s.buffer, false, 0)).2.1 = true →
      (tick chunk e s).1.history = s.history
      ∧ (tick chunk e s).2.hrRan = false
      ∧ (tick chunk e s).1.hrLabel = s.hrLabel := by
  intro chunk e s hflag
  unfold tick
  by_cases h0 : 0 < (processLines (chunkLines chunk) (s.buffer, false, 0)).2.2
  · rw [if_pos h0, if_neg (by rintro ⟨-, h, -⟩; rw [hflag] at h; simp at h)]
    exact ⟨rfl, rfl, rfl⟩
  · rw [if_neg h0]
    exact ⟨rfl, rfl, rfl⟩

/-- C5 (witness): a tick with batch `"-1\n500\n"` (a lead-off plus a valid
reading) on a fully populated 250-sample buffer with the timer elapsed: the
history and label survive unchanged and the estimator does not run. -/
theorem c5_witness :
    (processLines (chunkLines "-1\n500\n")
      ((List.replicate 250 (100 : ℤ)), false, 0)).2.1 = true
    ∧ ((tick "-1\n500\n" true ⟨List.replicate 250 100, [90], some 88⟩).1.history = [90]
      ∧ (tick "-1\n500\n" true ⟨List.replicate 250 100, [90], some 88⟩).2.hrRan = false
      ∧ (tick "-1\n500\n" true ⟨List.replicate 250 100, [90], some 88⟩).1.hrLabel
        = some 88) := by
  have h := c5_leadoff_gates_heart_rate "-1\n500\n" true
    ⟨List.replicate 250 100, [90], some 88⟩ (by decide)
  exact ⟨by decide, h⟩

/-- C6: for peak lists with at least 2 strictly ascending entries the
computed heart rate is `60 / (mean interval in seconds)` truncated to an
integer, where the mean of the consecutive differences telescopes to
`(last - first) / (count - 1)`; on the spec's example `[0, 250, 500]` at
sample rate 250 the BPM 60 is within bounds, pushed, and reported. -/
theorem c6_bpm_formula :
    (∀ pks : List ℕ, List.Pairwise (· < ·) pks → 2 ≤ pks.length →
      computedHR pks
        = truncInt ((60 : ℚ)
          / (((((pks.getD (pks.length - 1) 0 : ℕ) : ℚ) - ((pks.getD 0 0 : ℕ) : ℚ))
            / ((pks.length - 1 : ℕ) : ℚ)) / 250)))
    ∧ estimateHR [0, 250, 500] [] = ([60], some 60) := by
  constructor
  · intro pks _ _
    rw [computedHR, intervals_sum, intervals_length]
    congr 2
    push_cast
    ring
  · exact estimateHR_example60

/-- C6 (witness): the interval formula applied at `[0, 250, 500]`. -/
theorem c6_witness :
    List.Pairwise (· < ·) [0, 250, 500]
    ∧ 2 ≤ ([0, 250, 500] : List ℕ).length
    ∧ computedHR [0, 250, 500]
      = truncInt ((60 : ℚ)
        / ((((([0, 250, 500] : List ℕ).getD
              (([0, 250, 500] : List ℕ).length - 1) 0 : ℕ) : ℚ)
            - ((([0, 250, 500] : List ℕ).getD 0 0 : ℕ) : ℚ))
          / ((([0, 250, 500] : List ℕ).length - 1 : ℕ) : ℚ) / 250)) :=
  ⟨by norm_num, by decide, c6_bpm_formula.1 [0, 250, 500] (by norm_num) (by decide)⟩

/-- C7: with fewer than 2 peaks or a computed BPM outside `[40, 200]` the
estimator reports unavailable and leaves the history completely unchanged,
for every prior history. -/
theorem c7_reject_unavailable :
    ∀ (pks : List ℕ) (hist : List ℤ),
      (pks.length < 2 ∨ computedHR pks < 40 ∨ 200 < computedHR pks) →
      estimateHR pks hist = (hist, none) := by
  intro pks hist h
  by_cases hl : 2 ≤ pks.length
  · have hb : ¬(40 ≤ computedHR pks ∧ computedHR pks ≤ 200) := by
      rcases h with h | h | h
      · omega
      · omega
      · omega
    rw [estimateHR, if_pos hl, if_neg hb]
  · rw [estimateHR, if_neg hl]

/-- C7 (witness): peaks `[0, 750]` give BPM `⌊15000/750⌋ = 20 < 40`, which is
rejected without touching the history `[55]`. -/
theorem c7_witness :
    computedHR [0, 750] < 40
    ∧ estimateHR [0, 750] [55] = ([55], none) := by
  have h20 : computedHR [0, 750] = 20 := by
    rw [computedHR_pair 0 750 (by omega)]
    decide
  exact ⟨by rw [h20]; decide,
    c7_reject_unavailable [0, 750] [55] (Or.inr (Or.inl (by rw [h20]; decide)))⟩

/-- C8: every accepted BPM is pushed into the capacity-5 FIFO history
(keeping exactly the most recent 5, oldest evicted) and the report is the
integer mean of the resulting history; concretely the 5th acceptance
(BPM 66 after `[60, 62, 58, 64]`) reports `⌊310/5⌋ = 62`, and a 6th accepted
BPM evicts the oldest entry. -/
theorem c8_history_smoothing :
    (∀ (pks : List ℕ) (hist : List ℤ), 2 ≤ pks.length →
      40 ≤ computedHR pks → computedHR pks ≤ 200 → hist.length ≤ 5 →
      estimateHR pks hist
        = (histPush hist (computedHR pks),
           some (truncInt (((histPush hist (computedHR pks)).sum : ℚ)
             / ((histPush hist (computedHR pks)).length : ℚ))))
      ∧ histPush hist (computedHR pks)
        = (hist ++ [computedHR pks]).drop (hist.length + 1 - 5))
    ∧ estimateHR [0, 227] [60, 62, 58, 64] = ([60, 62, 58, 64, 66], some 62)
    ∧ estimateHR [0, 214] [60, 62, 58, 64, 66] = ([62, 58, 64, 66, 70], some 64) := by
  refine ⟨fun pks hist hl h1 h2 h5 => ⟨estimateHR_accept pks hist _ rfl hl h1 h2, ?_⟩,
    ?_, ?_⟩
  · by_cases hlt : hist.length < 5
    · rw [histPush, if_pos hlt, show hist.length + 1 - 5 = 0 by omega, List.drop_zero]
    · have h5' : hist.length = 5 := by omega
      cases hist with
      | nil => simp at h5'
      | cons a t =>
        rw [histPush, if_neg hlt, show (a :: t).length + 1 - 5 = 1 by omega]
        rfl
  · have hhr : computedHR [0, 227] = 66 := by
      rw [computedHR_pair 0 227 (by omega)]
      decide
    rw [estimateHR_accept _ _ 66 hhr (by decide) (by decide) (by decide),
      show histPush [60, 62, 58, 64] 66 = [60, 62, 58, 64, 66] from by decide,
      report_eval [60, 62, 58, 64, 66] 310 5 62 (by decide) (by decide) (by decide)
        (by decide)]
  · have hhr : computedHR [0, 214] = 70 := by
      rw [computedHR_pair 0 214 (by omega)]
      decide
    rw [estimateHR_accept _ _ 70 hhr (by decide) (by decide) (by decide),
      show histPush [60, 62, 58, 64, 66] 70 = [62, 58, 64, 66, 70] from by decide,
      report_eval [62, 58, 64, 66, 70] 320 5 64 (by decide) (by decide) (by decide)
        (by decide)]

/-- C8 (witness): the general acceptance statement applied at peaks
`[0, 300]` (BPM 50) and history `[44]`. -/
theorem c8_witness :
    2 ≤ ([0, 300] : List ℕ).length
    ∧ 40 ≤ computedHR [0, 300]
    ∧ computedHR [0, 300] ≤ 200
    ∧ ([44] : List ℤ).length ≤ 5
    ∧ (estimateHR [0, 300] [44]
        = (histPush [44] (computedHR [0, 300]),
           some (truncInt (((histPush [44] (computedHR [0, 300])).sum : ℚ)
             / ((histPush [44] (computedHR [0, 300])).length : ℚ))))
      ∧ histPush [44] (computedHR [0, 300])
        = ([44] ++ [computedHR [0, 300]]).drop (([44] : List ℤ).length + 1 - 5)) := by
  have hhr : computedHR [0, 300] = 50 := by
    rw [computedHR_pair 0 300 (by omega)]
    decide
  exact ⟨by decide, by rw [hhr]; decide, by rw [hhr]; decide, by decide,
    c8_history_smoothing.1 [0, 300] [44] (by decide) (by rw [hhr]; decide)
      (by rw [hhr]; decide) (by decide)⟩

/-- C9: the chunk `"-1\n123\nabc\n\n45\n"` parses to exactly
`[LeadOff, Reading 123, Reading 45]` in order; a line parsing to `-1` yields
LeadOff, a line parsing to any other integer yields a Reading, a line that is
empty after trimming or fails integer parsing is discarded, and a discarded
line never affects the events of the surrounding lines. -/
theorem c9_line_events :
    parseEvents "-1\n123\nabc\n\n45\n"
      = [SampleEvent.leadOff, SampleEvent.reading 123, SampleEvent.reading 45]
    ∧ (∀ line : List Char, pyIntChars (trimChars line) = some (-1) →
        lineEvent line = some SampleEvent.leadOff)
    ∧ (∀ (line : List Char) (v : ℤ), pyIntChars (trimChars line) = some v →
        v ≠ -1 → lineEvent line = some (SampleEvent.reading v))
    ∧ (∀ line : List Char,
        trimChars line = [] ∨ pyIntChars (trimChars line) = none →
        lineEvent line = none)
    ∧ (∀ (pre post : List (List Char)) (m : List Char), lineEvent m = none →
        (pre ++ m :: post).filterMap lineEvent
          = (pre ++ post).filterMap lineEvent) := by
  refine ⟨by decide, ?_, ?_, ?_, ?_⟩
  · intro line h
    have hne : (trimChars line).isEmpty = false := by
      cases htc : trimChars line with
      | nil => rw [htc] at h; exact absurd h (by decide)
      | cons a as => rfl
    unfold lineEvent
    rw [hne, if_neg (by simp), h]
    rfl
  · intro line v h hv
    have hne : (trimChars line).isEmpty = false := by
      cases htc : trimChars line with
      | nil =>
        rw [htc, show pyIntChars ([] : List Char) = none from rfl] at h
        exact Option.noConfusion h
      | cons a as => rfl
    unfold lineEvent
    rw [hne, if_neg (by simp), h]
    show (if v = -1 then some SampleEvent.leadOff else some (SampleEvent.reading v))
        = some (SampleEvent.reading v)
    rw [if_neg hv]
  · intro line h
    rcases h with h | h
    · unfold lineEvent
      rw [h]
      rfl
    · by_cases hne : (trimChars line).isEmpty
      · unfold lineEvent
        rw [if_pos hne]
      · unfold lineEvent
        rw [if_neg hne, h]
  · intro pre post m h
    rw [List.filterMap_append, List.filterMap_append, List.filterMap_cons_none h]

/-- C9 (witness): the per-line clauses applied at the lines `" -1 "`,
`"007"` and `"x9"`. -/
theorem c9_witness :
    lineEvent " -1 ".data = some SampleEvent.leadOff
    ∧ lineEvent "007".data = some (SampleEvent.reading 7)
    ∧ lineEvent "x9".data = none :=
  ⟨c9_line_events.2.1 " -1 ".data (by decide),
   c9_line_events.2.2.1 "007".data 7 (by decide) (by decide),
   c9_line_events.2.2.2.1 "x9".data (Or.inr (by decide))⟩

/-- C10: in every reachable state every stored history value lies in
`[40, 200]`, and for a nonempty history the reported smoothed BPM — the
integer mean of the history — lies in `[40, 200]` as well; the empty history
produced by connecting satisfies the invariant vacuously. -/
theorem c10_history_invariant :
    ∀ h : List ℤ, ReachableHist h →
      (∀ x ∈ h, 40 ≤ x ∧ x ≤ 200)
      ∧ (h ≠ [] →
          40 ≤ truncInt ((h.sum : ℚ) / (h.length : ℚ))
          ∧ truncInt ((h.sum : ℚ) / (h.length : ℚ)) ≤ 200) := by
  intro h hr
  have hmem := hist_mem_bounds h hr
  refine ⟨hmem, fun hne => ?_⟩
  have hlen : 0 < h.length := List.length_pos.mpr hne
  have hlenQ : (0 : ℚ) < (h.length : ℚ) := by exact_mod_cast hlen
  have hlo : h.length • (40 : ℤ) ≤ h.sum :=
    List.card_nsmul_le_sum h 40 (fun x hx => (hmem x hx).1)
  have hhi : h.sum ≤ h.length • (200 : ℤ) :=
    List.sum_le_card_nsmul h 200 (fun x hx => (hmem x hx).2)
  rw [nsmul_eq_mul] at hlo hhi
  have hs0 : (0 : ℤ) ≤ h.sum := le_trans (by positivity) hlo
  have hq0 : (0 : ℚ) ≤ (h.sum : ℚ) / (h.length : ℚ) :=
    div_nonneg (by exact_mod_cast hs0) (le_of_lt hlenQ)
  rw [truncInt, if_neg (not_lt.mpr hq0)]
  constructor
  · rw [Int.le_floor]
    rw [le_div_iff₀ hlenQ]
    have hloQ : ((h.length : ℤ) : ℚ) * 40 ≤ (h.sum : ℚ) := by exact_mod_cast hlo
    push_cast at hloQ ⊢
    linarith
  · have hfl : ((Int.floor ((h.sum : ℚ) / (h.length : ℚ)) : ℤ) : ℚ)
        ≤ (h.sum : ℚ) / (h.length : ℚ) := Int.floor_le _
    have hle : (h.sum : ℚ) / (h.length : ℚ) ≤ 200 := by
      rw [div_le_iff₀ hlenQ]
      have hhiQ : (h.sum : ℚ) ≤ ((h.length : ℤ) : ℚ) * 200 := by exact_mod_cast hhi
      push_cast at hhiQ ⊢
      linarith
    exact_mod_cast le_trans hfl hle

/-- C10 (witness): the invariant applied at the reachable history `[60]`
(reached from the initial empty history by one accepted estimate on peaks
`[0, 250, 500]`). -/
theorem c10_witness :
    (∀ x ∈ ([60] : List ℤ), 40 ≤ x ∧ x ≤ 200)
    ∧ (([60] : List ℤ) ≠ [] →
        40 ≤ truncInt ((([60] : List ℤ).sum : ℚ) / (([60] : List ℤ).length : ℚ))
        ∧ truncInt ((([60] : List ℤ).sum : ℚ) / (([60] : List ℤ).length : ℚ)) ≤ 200) := by
  have hreach : ReachableHist [60] := by
    have h := ReachableHist.step [] [0, 250, 500] ReachableHist.init
    rwa [estimateHR_example60] at h
  exact c10_history_invariant [60] hreach
